import Mathlib

/-!
Verification development for the synced-folder repository.

The repository contains two protocol variants:

* an event-log variant (files src/src/server/server.py and
  src/src/client/client.py): the server keeps an append-only table
  file_events with a SERIAL primary key, clients pull events with
  GET /sync?since_id=N and apply them to a local directory;

* an index/version polling variant (files src/server/server.py,
  src/client/client.py, src/clientA/client.py, src/clientB/client.py):
  the server keeps a path -> (sha, mtime, version) index, clients poll
  GET /index and push whole files via POST /upload.

Every definition below is a shallow embedding of a concrete function of
the repository; the doc comment of each definition names the source file
and lines it models.  Filesystem and database side effects are made
explicit: dictionaries become functions or association lists, the durable
store becomes an Except value, a possible disk-write failure becomes a
Boolean oracle.
-/

namespace SyncedFolder

/-! ## Event-log variant -/

namespace EventSync

/-- Row of the file_events table / JSON event object, as selected by
get_events in src/src/server/server.py lines 160-174.  The event_id
column is SERIAL, path TEXT NOT NULL, hash and content are nullable. -/
structure Event where
  event_id : Nat
  path : String
  hash : Option String
  deleted : Bool
  client : String
  content : Option String
deriving DecidableEq

/-- Model of get_events in src/src/server/server.py lines 153-179.  The
store argument is the result of reading the file_events table: an
Except.error models a storage-layer failure (psycopg2 raising inside the
try block), an Except.ok carries the table rows in insertion order
(event_id is SERIAL, so the stored rows carry strictly increasing ids and
the SQL ORDER BY event_id ASC returns them in that stored order; the
WHERE event_id > since clause is the filter).  On a storage failure the
Python code catches the exception, prints it and returns an empty list;
the match below reproduces exactly that. -/
def get_events (store : Except String (List Event)) (since_id : Int) : List Event :=
  match store with
  | Except.error _ => []
  | Except.ok rows => rows.filter (fun e => since_id < (e.event_id : Int))

/-- Decimal digit value of a character, used to model the Python int()
conversion on the since_id query parameter. -/
def digitVal (c : Char) : Option Nat :=
  if '0' ≤ c ∧ c ≤ '9' then some (c.toNat - 48) else none

/-- Decimal number denoted by a nonempty digit string. -/
def parseDigits : List Char → Option Nat
  | [] => none
  | cs => cs.foldl (fun acc c =>
      match acc, digitVal c with
      | some n, some d => some (n * 10 + d)
      | _, _ => none) (some 0)

/-- Model of the Python int() conversion applied to a query-string value:
an optional leading minus sign followed by decimal digits; anything else
raises ValueError, modelled as none.  (Surrounding whitespace and a plus
sign, which int() also accepts, do not occur in the protocol and are not
modelled.) -/
def parsePyInt (cs : List Char) : Option Int :=
  match cs with
  | '-' :: rest => (parseDigits rest).map (fun n => -(n : Int))
  | _ => (parseDigits cs).map (fun n => (n : Int))

/-- Model of the GET /sync branch of SyncHandler.do_GET in
src/src/server/server.py lines 286-293.  The query string is an
association list of parameters; parse_qs plus .get("since_id", [0])[0]
takes the first since_id value and defaults to the integer 0 when the
parameter is absent.  int() raising on a malformed value is caught by the
handler and answered with HTTP 500, modelled as Except.error 500. -/
def do_GET_sync (store : Except String (List Event))
    (query : List (String × String)) : Except Nat (List Event) :=
  match query.lookup "since_id" with
  | none => Except.ok (get_events store 0)
  | some v =>
    match parsePyInt v.data with
    | none => Except.error 500
    | some n => Except.ok (get_events store n)

/-- In-memory state of the client in src/src/client/client.py:
last_event_id (the cursor), current_state (dict path -> hash, where the
stored hash may itself be null), deleted_paths (a set), pending_events
(the set of (path, hash, deleted) keys of events this client sent), and
the synced directory, modelled as a map from relative path to file
content. -/
structure ClientState where
  lastEventId : Nat
  currentState : String → Option (Option String)
  deletedPaths : String → Bool
  pendingEvents : String × Option String × Bool → Bool
  disk : String → Option String

/-- Key under which send_event (src/src/client/client.py lines 42-43)
registers an event in pending_events. -/
def eventKey (e : Event) : String × Option String × Bool :=
  (e.path, e.hash, e.deleted)

/-- Python current_state.get(path): returns null both when the key is
absent and when the stored value is null. -/
def getHash (s : ClientState) (p : String) : Option String :=
  (s.currentState p).join

/-- Advance of last_event_id on line 91, 111 or 127 of
src/src/client/client.py: max of the cursor and the event id, nothing
else touched. -/
def bumpCursor (s : ClientState) (e : Event) : ClientState :=
  { s with lastEventId := max s.lastEventId e.event_id }

/-- Effect of the delete branch, src/src/client/client.py lines 97-103
plus the cursor advance on line 127: the path joins deleted_paths, leaves
current_state, the file is removed. -/
def delState (s : ClientState) (e : Event) : ClientState :=
  { s with
    deletedPaths := fun p => if p = e.path then true else s.deletedPaths p,
    currentState := fun p => if p = e.path then none else s.currentState p,
    disk := fun p => if p = e.path then none else s.disk p,
    lastEventId := max s.lastEventId e.event_id }

/-- State after lines 114-115 of src/src/client/client.py (deleted_paths
discard and current_state assignment), which run before the disk write:
this is the whole effect of an Updated event whose write then raises —
the disk and the cursor are untouched. -/
def updState (s : ClientState) (e : Event) : ClientState :=
  { s with
    deletedPaths := fun p => if p = e.path then false else s.deletedPaths p,
    currentState := fun p => if p = e.path then some e.hash else s.currentState p }

/-- State after a fully successful Updated apply, lines 114-127 of
src/src/client/client.py: the updState mutations plus the file write and
the cursor advance. -/
def updOkState (s : ClientState) (e : Event) (c : String) : ClientState :=
  { updState s e with
    disk := fun p => if p = e.path then some c else s.disk p,
    lastEventId := max s.lastEventId e.event_id }

/-- Model of one iteration of the event loop body of sync_loop in
src/src/client/client.py lines 77-131, applying a single pulled event to
the client state.  The writeOk flag is the oracle for the disk write on
lines 118-123 (makedirs plus open/write): false means that write raises,
in which case the except block on lines 128-131 swallows the error after
the state updates of lines 114-115 have already happened and before
last_event_id is advanced on line 127.  A null content value also makes
the write raise (f.write(None) is a TypeError), with the same effect.
Branches, in source order: empty path (line 79), echo skip (lines 86-92),
delete (lines 97-103), unchanged-hash skip (lines 107-112), write (lines
114-127). -/
def applyEvent (selfId : String) (writeOk : Bool) (s : ClientState) (e : Event) :
    ClientState :=
  if e.path = "" then s
  else if e.client = selfId ∧ s.pendingEvents (eventKey e) then bumpCursor s e
  else if e.deleted then delState s e
  else if getHash s e.path = e.hash then bumpCursor s e
  else
    match e.content with
    | some c => if writeOk then updOkState s e c else updState s e
    | none => updState s e

/-- Processing of one batch of events pulled by sync_loop (the for loop
on line 77 of src/src/client/client.py), with a per-event disk-write
oracle. -/
def processBatch (selfId : String) (w : Event → Bool) (s : ClientState)
    (events : List Event) : ClientState :=
  events.foldl (fun st e => applyEvent selfId (w e) st e) s

/-- Decision taken by watch_local in src/src/client/client.py lines
150-186 for a single regular file at relative path rel whose current
content hash is h: true means send_event is called for it.  known is the
snapshot entry of the previous scan; the function mirrors, in order, the
deleted_paths skip (line 156), the hidden-file skip (line 160), the
snapshot comparison (line 170) and the current_state comparison
(line 172). -/
def watchSends (known : Option String) (s : ClientState) (rel : String) (h : String) :
    Bool :=
  if s.deletedPaths rel then false
  else if rel.data.head? = some '.' then false
  else if known = some h then false
  else if getHash s rel = some h then false
  else true

/-- Sample event used to instantiate theorems at concrete inputs. -/
def egEvent : Event := ⟨1, "a.txt", some "h1", false, "nodeA", some "c"⟩

/-- Second sample event, with a higher sequence id. -/
def egEvent2 : Event := ⟨2, "b.txt", some "h2", false, "nodeB", some "c2"⟩

/-- Client state with empty maps and cursor 0, as after process start. -/
def emptyClient : ClientState :=
  { lastEventId := 0
    currentState := fun _ => none
    deletedPaths := fun _ => false
    pendingEvents := fun _ => false
    disk := fun _ => none }

/-- Client state in which the key of egEvent is pending, as after
send_event pushed that event. -/
def echoClient : ClientState :=
  { emptyClient with
    pendingEvents := fun k => decide (k = ("a.txt", some "h1", false)) }

end EventSync

/-! ## Index/version polling variant -/

namespace IndexServer

/-- Byte strings (file contents) are lists of byte values. -/
abbrev Bytes := List Nat

/-- Path strings are modelled as lists of characters so that every string
operation below is structural and evaluates inside the kernel. -/
abbrev Str := List Char

/-- Character list of a string literal. -/
def str (s : String) : Str := s.data

/-- Splitting of a character list at a separator, mirroring the Python
str.split: the result always has at least one (possibly empty) component
and empty components between adjacent separators are kept. -/
def splitCharAux (sep : Char) : List Char → List Char → List (List Char)
  | acc, [] => [acc.reverse]
  | acc, c :: rest =>
    if c = sep then acc.reverse :: splitCharAux sep [] rest
    else splitCharAux sep (c :: acc) rest

/-- Component normalization step of posixpath.normpath: empty and dot
components are dropped, a dotdot component pops the previous component
unless the path is relative and nothing is left to pop (then it is kept)
or the previous component is itself a kept dotdot; on an absolute path a
leading dotdot is dropped. -/
def normParts (absolute : Bool) : List Str → List Str → List Str
  | acc, [] => acc.reverse
  | acc, c :: rest =>
    if c = [] ∨ c = ['.'] then normParts absolute acc rest
    else if c = ['.', '.'] then
      match acc with
      | [] =>
        if absolute then normParts absolute [] rest
        else normParts absolute [['.', '.']] rest
      | a :: acc2 =>
        if a = ['.', '.'] then normParts absolute (c :: acc) rest
        else normParts absolute acc2 rest
    else normParts absolute (c :: acc) rest

/-- Joining of path components with slashes. -/
def joinSlash : List Str → Str
  | [] => []
  | [p] => p
  | p :: rest => p ++ '/' :: joinSlash rest

/-- Model of os.path.normpath on posix, as called by the server on every
incoming path (src/server/server.py lines 151, 195, 224).  The special
treatment of exactly two leading slashes, which the repository never
produces, is folded into the single-slash case; the subsequent
replace of backslashes is the identity on posix paths and is not
modelled. -/
def normpath (p : Str) : Str :=
  if p = [] then ['.']
  else
    let absolute := p.head? = some '/'
    let comps := normParts absolute [] (splitCharAux '/' [] p)
    let joined := joinSlash comps
    if absolute then '/' :: joined
    else if joined = [] then ['.'] else joined

/-- Model of os.path.join(ROOT, safe) for a ROOT that is absolute and has
no trailing slash: an absolute second argument replaces the first,
otherwise they are joined with a slash. -/
def pyJoin (a b : Str) : Str :=
  if b.head? = some '/' then b else a ++ '/' :: b

/-- Canonical segment list of an absolute path: what the operating system
resolves the path to when a file at it is opened (no symbolic links
assumed).  Dotdot segments are resolved against the real directory
tree, which for symlink-free trees is the lexical resolution below. -/
def resolveAbs (p : Str) : List Str :=
  normParts true [] (splitCharAux '/' [] p)

/-- Index of the last occurrence of a character. -/
def lastIdxAux (c : Char) : List Char → Nat → Option Nat → Option Nat
  | [], _, best => best
  | x :: rest, i, best =>
    lastIdxAux c rest (i + 1) (if x = c then some i else best)

/-- Index of the last occurrence of a character, none when absent. -/
def lastIdxOf (c : Char) (cs : Str) : Option Nat := lastIdxAux c cs 0 none

/-- Model of os.path.splitext on posix: split at the last dot that comes
after the last slash, unless every character of the basename before that
dot is itself a dot (leading-dots rule, so a dotfile has no extension). -/
def splitext (p : Str) : Str × Str :=
  let sepIdx : Int := match lastIdxOf '/' p with | none => -1 | some i => (i : Int)
  let dotIdx : Int := match lastIdxOf '.' p with | none => -1 | some i => (i : Int)
  if sepIdx < dotIdx then
    let nameStart := (sepIdx + 1).toNat
    let dotN := dotIdx.toNat
    if ((p.drop nameStart).take (dotN - nameStart)).any (fun ch => ch ≠ '.') then
      (p.take dotN, p.drop dotN)
    else (p, [])
  else (p, [])

/-- Decimal digits of a natural number, via a structural fuel argument so
that the definition evaluates inside the kernel. -/
def natToCharsAux : Nat → Nat → List Char
  | 0, _ => []
  | fuel + 1, n =>
    if n < 10 then [Nat.digitChar n]
    else natToCharsAux fuel (n / 10) ++ [Nat.digitChar (n % 10)]

/-- Decimal representation of a natural number. -/
def natToChars (n : Nat) : Str := natToCharsAux (n + 1) n

/-- Name of the conflict copy derived in src/server/server.py lines
203-204: same stem as the uploaded path, a conflict marker with the
current unix timestamp, then the original extension. -/
def conflictName (rel : Str) (ts : Nat) : Str :=
  (splitext rel).1 ++ str " (conflict @" ++ natToChars ts ++ [')'] ++ (splitext rel).2

/-- Association-list lookup keyed by paths (Python dict access). -/
def lookupA {α : Type} : List (Str × α) → Str → Option α
  | [], _ => none
  | kv :: rest, k => if kv.1 = k then some kv.2 else lookupA rest k

/-- Association-list update (Python dict assignment): replace the entry
in place when the key is present, append otherwise. -/
def setA {α : Type} (m : List (Str × α)) (k : Str) (v : α) : List (Str × α) :=
  if (lookupA m k).isSome then
    m.map (fun kv => if kv.1 = k then (k, v) else kv)
  else m ++ [(k, v)]

/-- Association-list deletion (Python del / file removal). -/
def eraseA {α : Type} (m : List (Str × α)) (k : Str) : List (Str × α) :=
  m.filter (fun kv => kv.1 ≠ k)

/-- One file held by the polling server, merged view of the storage
directory and the .index.json record for it: raw content, index mtime and
index version.  The recorded sha is recomputed from the content by
refresh_index_from_disk on every /index request, so it is derived here as
hash content instead of being stored. -/
structure SFile where
  content : Bytes
  mtime : Nat
  version : Nat
deriving DecidableEq

/-- State of the polling server of src/server/server.py: the files under
its storage root, keyed by slash-normalized relative path. -/
abbrev ServerSt := List (Str × SFile)

/-- Entry of the /index response used by the clients: content sha and
modification time (clients never read the version field). -/
structure SMeta where
  sha : Str
  mtime : Nat
deriving DecidableEq

/-- Model of the GET /index response (src/server/server.py lines
141-146): refresh_index_from_disk recomputes the sha of every stored
file, so each path maps to the hash of its current content plus its
mtime. -/
def serverIndex (hash : Bytes → Str) (srv : ServerSt) : List (Str × SMeta) :=
  srv.map (fun kv => (kv.1, ⟨hash kv.2.content, kv.2.mtime⟩))

/-- HTTP response of the upload handler. -/
structure UploadResp where
  code : Nat
  ok : Bool
  version : Nat
  sha : Str
deriving DecidableEq

/-- Model of the POST /upload branch of Handler.do_POST in
src/server/server.py lines 191-220.  The conflict test on line 202
compares the recorded sha only with the declared base_sha (never with the
fingerprint of the incoming bytes) and requires base_sha to be truthy
(neither null nor empty); when it fires, the incoming bytes are first
written to the derived conflict name (lines 203-206).  Lines 209-219 then
run unconditionally: the incoming bytes overwrite the file at the
requested path, the version is incremented (or set to 1 for a new path),
and the handler answers HTTP 200 with ok true — there is no 409 path.
A conflict file freshly written to disk is indexed with version 1 by the
next refresh_index_from_disk (line 114), which the merged state records
directly. -/
def do_POST_upload (hash : Bytes → Str) (now : Nat) (srv : ServerSt)
    (path : Str) (base_sha : Option Str) (data : Bytes) : UploadResp × ServerSt :=
  let rel := normpath path
  let rec0 := lookupA srv rel
  let srv1 :=
    match rec0 with
    | some r =>
      match base_sha with
      | some b =>
        if b ≠ [] ∧ b ≠ hash r.content then
          setA srv (conflictName rel now) ⟨data, now, 1⟩
        else srv
      | none => srv
    | none => srv
  let ver := match rec0 with | some r => r.version + 1 | none => 1
  let srv2 := setA srv1 rel ⟨data, now, ver⟩
  (⟨200, true, ver, hash data⟩, srv2)

/-- Model of the POST /delete branch of Handler.do_POST in
src/server/server.py lines 222-237: the file is removed from storage and
its entry from the index; a missing path is tolerated and the response is
always ok. -/
def do_POST_delete (srv : ServerSt) (path : Str) : ServerSt :=
  eraseA srv (normpath path)

/-- Model of the GET /download branch of Handler.do_GET in
src/server/server.py lines 148-163.  The filesystem is a map from
canonical absolute segment lists to content; a file is served when the
joined string passes the startswith check against ROOT and a file exists
at the location the path resolves to, otherwise the handler answers 404
(modelled as none). -/
def do_GET_download (fs : List Str → Option Bytes) (ROOT : Str)
    (pathParam : Str) : Option Bytes :=
  let safe := normpath pathParam
  let fp := pyJoin ROOT safe
  if ROOT.isPrefixOf fp then fs (resolveAbs fp) else none

/-- One local file of a polling client: content and modification time. -/
structure LFile where
  content : Bytes
  mtime : Nat
deriving DecidableEq

/-- State of a polling client: the files of its sync directory, keyed by
slash-normalized relative path, and the path list persisted in
.local_state.json by the previous cycle. -/
structure ClientFs where
  files : List (Str × LFile)
  prevFiles : List Str
deriving DecidableEq

/-- Local-deletion phase shared by both polling clients (src/client/
client.py lines 97-106 and src/clientB/client.py lines 110-123): each
path recorded by the previous cycle but now absent from the directory is
deleted on the server when the index fetched at the start of the cycle
lists it; the membership test uses that initial index, not a refreshed
one. -/
def deletePhase (hash : Bytes → Str) (srv0 : ServerSt) (cl : ClientFs) : ServerSt :=
  let sidx0 := serverIndex hash srv0
  (cl.prevFiles.filter (fun q => (lookupA cl.files q).isNone)).foldl
    (fun sv q => if (lookupA sidx0 q).isSome then do_POST_delete sv q else sv) srv0

/-- Upload step of client A (src/client/client.py lines 112-115): a local
file missing from the refreshed index is uploaded with a null base, one
whose sha differs is uploaded with the indexed sha as base; the
accumulator carries the server state and the uploaded paths. -/
def upStepA (hash : Bytes → Str) (now : Nat) (sidx : List (Str × SMeta))
    (acc : ServerSt × List Str) (kv : Str × LFile) : ServerSt × List Str :=
  match lookupA sidx kv.1 with
  | none =>
    ((do_POST_upload hash now acc.1 kv.1 none kv.2.content).2, acc.2 ++ [kv.1])
  | some m =>
    if m.sha ≠ hash kv.2.content then
      ((do_POST_upload hash now acc.1 kv.1 (some m.sha) kv.2.content).2,
        acc.2 ++ [kv.1])
    else acc

/-- Download step of client A (src/client/client.py lines 119-123): an
indexed path that is missing locally or whose local sha differs is
fetched from the live server state and written locally with the current
time as mtime.  An indexed path is always present on the live server in
this sequential model (nothing is erased after the refresh), so the
unreachable 404 branch leaves the directory unchanged. -/
def dlStepA (hash : Bytes → Str) (now : Nat) (srv : ServerSt)
    (fsAcc : List (Str × LFile)) (km : Str × SMeta) : List (Str × LFile) :=
  let need := match lookupA fsAcc km.1 with
    | none => true
    | some lf => hash lf.content ≠ km.2.sha
  if need then
    match lookupA srv km.1 with
    | some sf => setA fsAcc km.1 ⟨sf.content, now⟩
    | none => fsAcc
  else fsAcc

/-- Model of sync_once in src/client/client.py lines 93-126, one full
cycle of client A against the polling server.  Returns the new server
state, the new client state and the list of paths the client uploaded.
Phases in source order: deletions of locally deleted files (lines
97-106), an index refresh (line 109), uploads of new or changed files
(lines 112-115, base taken from the refreshed index), a second refresh
(line 118) and downloads of missing or differing files (lines 119-123,
existence tested against the live directory), then the state save
(line 126). -/
def syncOnceA (hash : Bytes → Str) (now : Nat) (srv0 : ServerSt) (cl : ClientFs) :
    ServerSt × ClientFs × List Str :=
  let srv1 := deletePhase hash srv0 cl
  let sidx1 := serverIndex hash srv1
  let up := cl.files.foldl (upStepA hash now sidx1) (srv1, [])
  let sidx2 := serverIndex hash up.1
  let files2 := sidx2.foldl (dlStepA hash now up.1) cl.files
  (up.1, ⟨files2, files2.map (fun kv => kv.1)⟩, up.2)

/-- Upload-or-update step of client B (src/clientB/client.py lines
140-159): a local file missing from the index is uploaded with a null
base; one whose sha differs is arbitrated by modification times — upload
when the local file is newer by more than one second, download when the
server copy is, otherwise skip.  The accumulator carries the server
state, the local directory and the uploaded paths. -/
def upStepB (hash : Bytes → Str) (now : Nat) (sidx : List (Str × SMeta))
    (acc : ServerSt × List (Str × LFile) × List Str) (kv : Str × LFile) :
    ServerSt × List (Str × LFile) × List Str :=
  match lookupA sidx kv.1 with
  | none =>
    ((do_POST_upload hash now acc.1 kv.1 none kv.2.content).2, acc.2.1,
      acc.2.2 ++ [kv.1])
  | some m =>
    if m.sha ≠ hash kv.2.content then
      if m.mtime + 1 < kv.2.mtime then
        ((do_POST_upload hash now acc.1 kv.1 (some m.sha) kv.2.content).2,
          acc.2.1, acc.2.2 ++ [kv.1])
      else if kv.2.mtime + 1 < m.mtime then
        (acc.1,
          (match lookupA acc.1 kv.1 with
           | some sf => setA acc.2.1 kv.1 ⟨sf.content, now⟩
           | none => acc.2.1), acc.2.2)
      else acc
    else acc

/-- Download step of client B (src/clientB/client.py lines 162-165): an
indexed path missing from the live directory is fetched from the live
server state. -/
def dlStepB (_hash : Bytes → Str) (now : Nat) (srv : ServerSt)
    (fsAcc : List (Str × LFile)) (km : Str × SMeta) : List (Str × LFile) :=
  if (lookupA fsAcc km.1).isNone then
    match lookupA srv km.1 with
    | some sf => setA fsAcc km.1 ⟨sf.content, now⟩
    | none => fsAcc
  else fsAcc

/-- Model of sync_once in src/clientB/client.py lines 105-168, one full
cycle of client B.  Phases in source order: fetch indexes (line 107),
remove locally deleted files from the server (lines 116-123, membership
tested against the line-107 index), refresh (line 126), delete local
files the server no longer lists (lines 130-137, realized as the filter
below), uploads and timestamp-arbitrated updates (lines 140-159,
iterating the directory as re-read after the remote deletions, metadata
from the line-126 index), downloads of files missing locally (lines
162-165, presence tested against the live directory), state save
(line 168). -/
def syncOnceB (hash : Bytes → Str) (now : Nat) (srv0 : ServerSt) (cl : ClientFs) :
    ServerSt × ClientFs × List Str :=
  let srv1 := deletePhase hash srv0 cl
  let sidx1 := serverIndex hash srv1
  let files1 := cl.files.filter (fun kv => (lookupA sidx1 kv.1).isSome)
  let up := files1.foldl (upStepB hash now sidx1) (srv1, files1, [])
  let files3 := sidx1.foldl (dlStepB hash now up.1) up.2.1
  (up.1, ⟨files3, files3.map (fun kv => kv.1)⟩, up.2.2)

/-- Sample polling world: the server holds p.txt, client A has deleted it
locally (it is still in the saved state list), client B has not yet
synced. -/
def srvP : ServerSt := [(str "p.txt", ⟨[1], 0, 1⟩)]

/-- Client A after locally deleting p.txt: empty directory, previous state
still listing the file. -/
def clA0 : ClientFs := ⟨[], [str "p.txt"]⟩

/-- Client B that never had p.txt. -/
def clB0 : ClientFs := ⟨[], []⟩

/-- Client B that independently deleted p.txt as well. -/
def clBdel : ClientFs := ⟨[], [str "p.txt"]⟩

/-- Constant test hash. -/
def hashW : Bytes → Str := fun _ => ['h']

/-- Sample filesystem for the download model: a single file at /app/x,
outside the storage root /app/storage. -/
def outsideFs : List Str → Option Bytes :=
  fun q => if q = [str "app", str "x"] then some [7] else none

end IndexServer

namespace EventSync

/-- Client state whose current_state already records hash h1 for a.txt,
as after that file was applied or locally observed. -/
def matchedClient : ClientState :=
  { emptyClient with
    currentState := fun p => if p = "a.txt" then some (some "h1") else none,
    disk := fun p => if p = "a.txt" then some "c" else none }

end EventSync

namespace EventSync

theorem applyEvent_empty {selfId : String} {w : Bool} {s : ClientState} {e : Event}
    (hp : e.path = "") : applyEvent selfId w s e = s := by
  unfold applyEvent
  rw [if_pos hp]

theorem applyEvent_echo {selfId : String} {w : Bool} {s : ClientState} {e : Event}
    (hp : e.path ≠ "")
    (hecho : e.client = selfId ∧ s.pendingEvents (eventKey e) = true) :
    applyEvent selfId w s e = bumpCursor s e := by
  unfold applyEvent
  rw [if_neg hp, if_pos hecho]

theorem applyEvent_del {selfId : String} {w : Bool} {s : ClientState} {e : Event}
    (hp : e.path ≠ "")
    (hecho : ¬(e.client = selfId ∧ s.pendingEvents (eventKey e) = true))
    (hd : e.deleted = true) :
    applyEvent selfId w s e = delState s e := by
  unfold applyEvent
  rw [if_neg hp, if_neg hecho, if_pos hd]

theorem applyEvent_skip {selfId : String} {w : Bool} {s : ClientState} {e : Event}
    (hp : e.path ≠ "")
    (hecho : ¬(e.client = selfId ∧ s.pendingEvents (eventKey e) = true))
    (hd : e.deleted = false) (hh : getHash s e.path = e.hash) :
    applyEvent selfId w s e = bumpCursor s e := by
  unfold applyEvent
  rw [if_neg hp, if_neg hecho, if_neg (by simp [hd]), if_pos hh]

theorem applyEvent_upd_ok {selfId : String} {s : ClientState} {e : Event} {c : String}
    (hp : e.path ≠ "")
    (hecho : ¬(e.client = selfId ∧ s.pendingEvents (eventKey e) = true))
    (hd : e.deleted = false) (hh : ¬ getHash s e.path = e.hash)
    (hc : e.content = some c) :
    applyEvent selfId true s e = updOkState s e c := by
  unfold applyEvent
  rw [if_neg hp, if_neg hecho, if_neg (by simp [hd]), if_neg hh, hc]
  rfl

theorem applyEvent_upd_failw {selfId : String} {s : ClientState} {e : Event} {c : String}
    (hp : e.path ≠ "")
    (hecho : ¬(e.client = selfId ∧ s.pendingEvents (eventKey e) = true))
    (hd : e.deleted = false) (hh : ¬ getHash s e.path = e.hash)
    (hc : e.content = some c) :
    applyEvent selfId false s e = updState s e := by
  unfold applyEvent
  rw [if_neg hp, if_neg hecho, if_neg (by simp [hd]), if_neg hh, hc]
  rfl

theorem applyEvent_upd_none {selfId : String} {w : Bool} {s : ClientState} {e : Event}
    (hp : e.path ≠ "")
    (hecho : ¬(e.client = selfId ∧ s.pendingEvents (eventKey e) = true))
    (hd : e.deleted = false) (hh : ¬ getHash s e.path = e.hash)
    (hc : e.content = none) :
    applyEvent selfId w s e = updState s e := by
  unfold applyEvent
  rw [if_neg hp, if_neg hecho, if_neg (by simp [hd]), if_neg hh, hc]

theorem getHash_updState {s : ClientState} {e : Event} :
    getHash (updState s e) e.path = e.hash := by
  simp [getHash, updState]

theorem getHash_updOkState {s : ClientState} {e : Event} {c : String} :
    getHash (updOkState s e c) e.path = e.hash := by
  simp [getHash, updOkState, updState]

/-- C3 (amended): when the pulled event carries the own id of the node and
its (path, hash, deleted) key is in pending_events, the sync loop leaves
pending_events unchanged (removal happens only through the timed expiry
thread started by send_event, not here), advances last_event_id to the
max with the event id, touches neither the disk nor current_state nor
deleted_paths, and leaves every decision of the local watcher — hence any
outbound event — exactly as it was. -/
theorem c3_echo_suppression (selfId : String) (w : Bool) (s : ClientState) (e : Event)
    (hp : e.path ≠ "") (hc : e.client = selfId)
    (hpend : s.pendingEvents (eventKey e) = true) :
    (applyEvent selfId w s e).pendingEvents = s.pendingEvents ∧
    (applyEvent selfId w s e).lastEventId = max s.lastEventId e.event_id ∧
    (applyEvent selfId w s e).disk = s.disk ∧
    (applyEvent selfId w s e).currentState = s.currentState ∧
    (applyEvent selfId w s e).deletedPaths = s.deletedPaths ∧
    (∀ known p h, watchSends known (applyEvent selfId w s e) p h
        = watchSends known s p h) := by
  rw [applyEvent_echo hp ⟨hc, hpend⟩]
  exact ⟨rfl, rfl, rfl, rfl, rfl, fun _ _ _ => rfl⟩

/-- C3 witness: the theorem instantiated at a concrete echoed event. -/
theorem c3_witness :
    egEvent.client = "nodeA" ∧ echoClient.pendingEvents (eventKey egEvent) = true ∧
    (applyEvent "nodeA" true echoClient egEvent).pendingEvents
      = echoClient.pendingEvents :=
  ⟨by decide, by decide,
    (c3_echo_suppression "nodeA" true echoClient egEvent (by decide) (by decide)
      (by decide)).1⟩

/-- C3 counterexample: after the echo of its own event is processed, the
(path, hash, deleted) tuple is still in pending_events — the original
claim that the reconciler removes it from the set is false at this input;
only the timed expiry thread removes it later. -/
theorem c3_counterexample :
    egEvent.client = "nodeA" ∧ echoClient.pendingEvents (eventKey egEvent) = true ∧
    (applyEvent "nodeA" true echoClient egEvent).pendingEvents (eventKey egEvent)
      = true := by
  exact ⟨by decide, by decide, by decide⟩

/-- C4 (confirmed): applying one ChangeEvent twice leaves the same disk
and the same applied-fingerprint map as applying it once, whatever the
outcome of each disk write; and when current_state already records the
fingerprint of the event, the apply is a no-op that only advances the
cursor. -/
theorem c4_idempotent_apply (selfId : String) (w1 w2 : Bool) (s : ClientState)
    (e : Event) :
    (applyEvent selfId w2 (applyEvent selfId w1 s e) e).disk
        = (applyEvent selfId w1 s e).disk ∧
    (applyEvent selfId w2 (applyEvent selfId w1 s e) e).currentState
        = (applyEvent selfId w1 s e).currentState ∧
    (e.path ≠ "" → ¬(e.client = selfId ∧ s.pendingEvents (eventKey e) = true) →
      e.deleted = false → getHash s e.path = e.hash →
      applyEvent selfId w1 s e = bumpCursor s e) := by
  refine ⟨?_, ?_, fun hp hecho hd hh => applyEvent_skip hp hecho hd hh⟩ <;>
  · by_cases hp : e.path = ""
    · rw [applyEvent_empty hp, applyEvent_empty hp]
    · by_cases hecho : e.client = selfId ∧ s.pendingEvents (eventKey e) = true
      · rw [applyEvent_echo hp hecho,
          applyEvent_echo (s := bumpCursor s e) hp (by exact hecho)]
        rfl
      · by_cases hd : e.deleted
        · rw [applyEvent_del hp hecho hd,
            applyEvent_del (s := delState s e) hp (by exact hecho) hd]
          funext p
          by_cases hpe : p = e.path <;> simp [delState, hpe]
        · have hd2 : e.deleted = false := by simpa using hd
          by_cases hh : getHash s e.path = e.hash
          · rw [applyEvent_skip hp hecho hd2 hh,
              applyEvent_skip (s := bumpCursor s e) hp (by exact hecho) hd2
                (by exact hh)]
            rfl
          · cases hcon : e.content with
            | none =>
              rw [applyEvent_upd_none hp hecho hd2 hh hcon,
                applyEvent_skip (s := updState s e) hp (by exact hecho) hd2
                  getHash_updState]
              rfl
            | some c =>
              cases w1 with
              | false =>
                rw [applyEvent_upd_failw hp hecho hd2 hh hcon,
                  applyEvent_skip (s := updState s e) hp (by exact hecho) hd2
                    getHash_updState]
                rfl
              | true =>
                rw [applyEvent_upd_ok hp hecho hd2 hh hcon,
                  applyEvent_skip (s := updOkState s e c) hp (by exact hecho) hd2
                    getHash_updOkState]
                rfl

/-- C4 witness: the no-op clause of the theorem instantiated at a state
that already records the fingerprint of the event. -/
theorem c4_witness :
    egEvent.path ≠ "" ∧
    applyEvent "self" true matchedClient egEvent = bumpCursor matchedClient egEvent :=
  ⟨by decide,
    (c4_idempotent_apply "self" true true matchedClient egEvent).2.2 (by decide)
      (by decide) (by decide) (by decide)⟩

/-- C5 (amended): when the disk write of an Updated event raises, the
path has at that point already been marked applied with the fingerprint
of the event (current_state is assigned before the write), the disk and
the cursor are left unchanged by the failing event, the rest of the batch
is still processed, and on any later cycle the same event is skipped as
already applied instead of being re-applied. -/
theorem c5_write_failure (selfId : String) (s : ClientState) (e : Event) (c : String)
    (hp : e.path ≠ "")
    (hecho : ¬(e.client = selfId ∧ s.pendingEvents (eventKey e) = true))
    (hd : e.deleted = false) (hh : ¬ getHash s e.path = e.hash)
    (hc : e.content = some c) :
    (applyEvent selfId false s e).currentState e.path = some e.hash ∧
    (applyEvent selfId false s e).disk = s.disk ∧
    (applyEvent selfId false s e).lastEventId = s.lastEventId ∧
    (∀ w2, applyEvent selfId w2 (applyEvent selfId false s e) e
        = bumpCursor (applyEvent selfId false s e) e) ∧
    (∀ (w : Event → Bool) (rest : List Event), w e = false →
      processBatch selfId w s (e :: rest)
        = processBatch selfId w (applyEvent selfId false s e) rest) := by
  rw [applyEvent_upd_failw hp hecho hd hh hc]
  refine ⟨by simp [updState], rfl, rfl, ?_, ?_⟩
  · intro w2
    exact applyEvent_skip (s := updState s e) hp (by exact hecho) hd getHash_updState
  · intro w rest hw
    show processBatch selfId w s (e :: rest) = _
    unfold processBatch
    rw [List.foldl_cons, hw, applyEvent_upd_failw hp hecho hd hh hc]

/-- C5 witness: the theorem instantiated at a concrete failing write. -/
theorem c5_witness :
    egEvent.content = some "c" ∧
    (applyEvent "self" false emptyClient egEvent).currentState egEvent.path
      = some egEvent.hash :=
  ⟨by decide,
    (c5_write_failure "self" emptyClient egEvent "c" (by decide) (by decide)
      (by decide) (by decide) (by decide)).1⟩

/-- C5 counterexample: a failing write does not leave the applied state of
the path unchanged — current_state is already set to the fingerprint of
the event before the write — and on the next fully working cycle the
event is skipped, so the file content is still absent from disk after a
successful re-apply. -/
theorem c5_counterexample :
    emptyClient.currentState "a.txt" = none ∧
    (applyEvent "self" false emptyClient egEvent).currentState "a.txt"
      = some (some "h1") ∧
    (applyEvent "self" true (applyEvent "self" false emptyClient egEvent)
        egEvent).disk "a.txt" = none := by
  exact ⟨by decide, by decide, by decide⟩

theorem applyEvent_cursor_succeed {selfId : String} {s : ClientState} {e : Event}
    (hp : e.path ≠ "") (hco : e.deleted = false → e.content.isSome) :
    (applyEvent selfId true s e).lastEventId = max s.lastEventId e.event_id := by
  unfold applyEvent
  rw [if_neg hp]
  by_cases hecho : e.client = selfId ∧ s.pendingEvents (eventKey e) = true
  · rw [if_pos hecho]; rfl
  · rw [if_neg hecho]
    by_cases hd : e.deleted = true
    · rw [if_pos hd]; rfl
    · rw [if_neg hd]
      by_cases hh : getHash s e.path = e.hash
      · rw [if_pos hh]; rfl
      · rw [if_neg hh]
        have hsome : e.content.isSome := hco (by simpa using hd)
        cases hcont : e.content with
        | none => rw [hcont] at hsome; simp at hsome
        | some c => rfl

theorem processBatch_cursor (selfId : String) (w : Event → Bool) :
    ∀ (events : List Event) (s : ClientState),
      (∀ e ∈ events, e.path ≠ "") → (∀ e ∈ events, w e = true) →
      (∀ e ∈ events, e.deleted = false → e.content.isSome) →
      (processBatch selfId w s events).lastEventId
        = events.foldl (fun c e => max c e.event_id) s.lastEventId := by
  intro events
  induction events with
  | nil => intro s _ _ _; rfl
  | cons e es ih =>
    intro s hp hw hco
    have he : w e = true := hw e (List.mem_cons_self e es)
    simp only [processBatch, List.foldl_cons]
    rw [he]
    have hcur := @applyEvent_cursor_succeed selfId s e
      (hp e (List.mem_cons_self e es)) (hco e (List.mem_cons_self e es))
    have IH := ih (applyEvent selfId true s e)
      (fun x hx => hp x (List.mem_cons_of_mem e hx))
      (fun x hx => hw x (List.mem_cons_of_mem e hx))
      (fun x hx => hco x (List.mem_cons_of_mem e hx))
    simp only [processBatch] at IH
    rw [IH, hcur]

theorem le_foldl_max (l : List Nat) : ∀ c : Nat, c ≤ l.foldl max c := by
  induction l with
  | nil => intro c; exact le_refl c
  | cons x xs ih => intro c; exact le_trans (le_max_left c x) (ih (max c x))

theorem mem_le_foldl_max (l : List Nat) : ∀ (c x : Nat), x ∈ l → x ≤ l.foldl max c := by
  induction l with
  | nil => intro c x hx; cases hx
  | cons y ys ih =>
    intro c x hx
    rcases List.mem_cons.mp hx with h | h
    · subst h; exact le_trans (le_max_right c x) (le_foldl_max ys (max c x))
    · exact ih (max c y) x h

theorem foldl_max_lt (l : List Nat) :
    ∀ c b : Nat, c < b → (∀ x ∈ l, x < b) → l.foldl max c < b := by
  induction l with
  | nil => intro c b hc _; exact hc
  | cons y ys ih =>
    intro c b hc hall
    exact ih (max c y) b (max_lt hc (hall y (List.mem_cons_self y ys)))
      (fun x hx => hall x (List.mem_cons_of_mem y hx))

theorem foldl_max_last (l : List Nat) :
    ∀ c : Nat, (∀ x ∈ l, c < x) → l.Pairwise (· < ·) →
      l.foldl max c = l.getLast?.getD c := by
  induction l with
  | nil => intro c _ _; rfl
  | cons x xs ih =>
    intro c hgt hpw
    have hx : c < x := hgt x (List.mem_cons_self x xs)
    have h1 : max c x = x := max_eq_right (le_of_lt hx)
    have hpw2 := List.pairwise_cons.mp hpw
    cases xs with
    | nil => simp [h1]
    | cons y ys =>
      have hfold : (x :: y :: ys).foldl max c = (y :: ys).foldl max x := by
        simp [List.foldl_cons, h1]
      rw [hfold, ih x hpw2.1 hpw2.2, List.getLast?_cons_cons]
      obtain ⟨z, hz⟩ := Option.isSome_iff_exists.mp
        (List.getLast?_isSome.mpr (by simp) : ((y :: ys).getLast?).isSome)
      rw [hz]
      rfl

/-- C7 (confirmed): for a batch of events as served by the event log —
strictly ascending sequence ids, all beyond the cursor of the client —
whose events all apply successfully, the cursor ends at the id of the
last event processed, the loop never applies an event whose id is at or
below the cursor it holds when reaching it, and no event of the batch is
left beyond the final cursor. -/
theorem c7_cursor_invariant (selfId : String) (w : Event → Bool) (s : ClientState)
    (events : List Event)
    (hasc : (events.map Event.event_id).Pairwise (· < ·))
    (hgt : ∀ e ∈ events, s.lastEventId < e.event_id)
    (hp : ∀ e ∈ events, e.path ≠ "")
    (hw : ∀ e ∈ events, w e = true)
    (hco : ∀ e ∈ events, e.deleted = false → e.content.isSome) :
    (∀ elast, events.getLast? = some elast →
       (processBatch selfId w s events).lastEventId = elast.event_id) ∧
    (∀ l1 e l2, events = l1 ++ e :: l2 →
       (processBatch selfId w s l1).lastEventId < e.event_id) ∧
    (∀ e ∈ events, e.event_id ≤ (processBatch selfId w s events).lastEventId) := by
  have hfold : (processBatch selfId w s events).lastEventId
      = (events.map Event.event_id).foldl max s.lastEventId := by
    rw [processBatch_cursor selfId w events s hp hw hco, List.foldl_map]
  refine ⟨?_, ?_, ?_⟩
  · intro elast hlast
    rw [hfold, foldl_max_last _ _
      (fun x hx => by
        obtain ⟨e, he, rfl⟩ := List.mem_map.mp hx
        exact hgt e he) hasc]
    rw [List.getLast?_map, hlast]
    rfl
  · intro l1 e l2 heq
    subst heq
    have hp1 : ∀ x ∈ l1, x.path ≠ "" := fun x hx => hp x (by simp [hx])
    have hw1 : ∀ x ∈ l1, w x = true := fun x hx => hw x (by simp [hx])
    have hco1 : ∀ x ∈ l1, x.deleted = false → x.content.isSome :=
      fun x hx => hco x (by simp [hx])
    have hfold1 : (processBatch selfId w s l1).lastEventId
        = (l1.map Event.event_id).foldl max s.lastEventId := by
      rw [processBatch_cursor selfId w l1 s hp1 hw1 hco1, List.foldl_map]
    rw [hfold1]
    apply foldl_max_lt
    · exact hgt e (by simp)
    · intro x hx
      rw [List.map_append] at hasc
      have hcross := (List.pairwise_append.mp hasc).2.2
      exact hcross x hx e.event_id (by simp)
  · intro e he
    rw [hfold]
    exact mem_le_foldl_max _ s.lastEventId e.event_id
      (List.mem_map_of_mem Event.event_id he)

/-- C7 witness: the theorem instantiated at a concrete two-event batch. -/
theorem c7_witness :
    (processBatch "self" (fun _ => true) emptyClient [egEvent, egEvent2]).lastEventId
      = egEvent2.event_id :=
  (c7_cursor_invariant "self" (fun _ => true) emptyClient [egEvent, egEvent2]
    (by decide) (by decide) (by decide) (by decide) (by decide)).1 egEvent2 (by decide)

theorem do_GET_sync_param (store : Except String (List Event)) (v : String) :
    do_GET_sync store [("since_id", v)]
      = match parsePyInt v.data with
        | none => Except.error 500
        | some n => Except.ok (get_events store n) := rfl

/-- C8 (amended): with the query parameter spelled since_id — not since as
the claim states — the sync endpoint returns exactly the stored events
whose sequence id exceeds the requested value, in ascending id order and
without any bound on the length. -/
theorem c8_events_since (rows : List Event) (v : String) (n : Int)
    (hv : parsePyInt v.data = some n)
    (hasc : (rows.map Event.event_id).Pairwise (· < ·)) :
    do_GET_sync (Except.ok rows) [("since_id", v)]
      = Except.ok (get_events (Except.ok rows) n) ∧
    (∀ e, e ∈ get_events (Except.ok rows) n ↔ (e ∈ rows ∧ n < (e.event_id : Int))) ∧
    ((get_events (Except.ok rows) n).map Event.event_id).Pairwise (· < ·) := by
  refine ⟨?_, ?_, ?_⟩
  · rw [do_GET_sync_param, hv]
  · intro e
    simp [get_events, List.mem_filter]
  · have hsub : List.Sublist ((get_events (Except.ok rows) n).map Event.event_id)
        (rows.map Event.event_id) :=
      List.Sublist.map _ (List.filter_sublist _)
    exact List.Pairwise.sublist hsub hasc

/-- C8 witness: the amended theorem instantiated at a two-event store and
the request since_id=1. -/
theorem c8_witness :
    do_GET_sync (Except.ok [egEvent, egEvent2]) [("since_id", "1")]
      = Except.ok (get_events (Except.ok [egEvent, egEvent2]) 1) ∧
    (egEvent2 ∈ get_events (Except.ok [egEvent, egEvent2]) 1 ↔
      (egEvent2 ∈ [egEvent, egEvent2] ∧ (1 : Int) < egEvent2.event_id)) :=
  ⟨(c8_events_since [egEvent, egEvent2] "1" 1 (by decide) (by decide)).1,
    (c8_events_since [egEvent, egEvent2] "1" 1 (by decide) (by decide)).2.1 egEvent2⟩

/-- C8 counterexample: a request literally of the form /sync?since=1, as
the claim spells the parameter, is answered with every stored event —
including the one with sequence id 1 — because the handler only reads a
parameter named since_id and defaults to 0: the claim as stated is false
at this input. -/
theorem c8_counterexample :
    do_GET_sync (Except.ok [egEvent]) [("since", "1")] = Except.ok [egEvent] ∧
    ¬((1 : Int) < egEvent.event_id) := by
  exact ⟨rfl, by decide⟩

/-- C9 (amended): a storage failure during eventsSince is swallowed inside
get_events, which returns an empty list indistinguishable from a store
holding no newer events; the HTTP handler then answers 200 with that
empty list, and no retry happens anywhere in the call. -/
theorem c9_storage_error (err : String) (since : Int) :
    get_events (Except.error err) since = [] ∧
    get_events (Except.error err) since = get_events (Except.ok []) since ∧
    (∀ v n, parsePyInt v.data = some n →
      do_GET_sync (Except.error err) [("since_id", v)] = Except.ok []) := by
  refine ⟨rfl, rfl, ?_⟩
  intro v n hv
  rw [do_GET_sync_param, hv]
  rfl

/-- C9 witness: the amended theorem instantiated at a concrete failing
store. -/
theorem c9_witness :
    get_events (Except.error "connection refused") 0 = [] ∧
    do_GET_sync (Except.error "connection refused") [("since_id", "0")]
      = Except.ok [] :=
  ⟨(c9_storage_error "connection refused" 0).1,
    (c9_storage_error "connection refused" 0).2.2 "0" 0 (by decide)⟩

/-- C9 counterexample: a failing store is reported exactly like an empty
store — the call does not fail and the storage error is presented as an
empty event list, which the original claim rules out. -/
theorem c9_counterexample :
    do_GET_sync (Except.error "db down") [("since_id", "0")]
      = do_GET_sync (Except.ok []) [("since_id", "0")] ∧
    do_GET_sync (Except.error "db down") [("since_id", "0")] = Except.ok [] := by
  exact ⟨rfl, rfl⟩

end EventSync

namespace IndexServer

theorem lookupA_map_set {α : Type} (m : List (Str × α)) (k q : Str) (v : α)
    (h : q ≠ k) :
    lookupA (m.map (fun kv => if kv.1 = k then (k, v) else kv)) q = lookupA m q := by
  induction m with
  | nil => rfl
  | cons kv rest ih =>
    by_cases hk : kv.1 = k
    · simp only [List.map_cons, if_pos hk, lookupA]
      rw [if_neg (Ne.symm h), if_neg (hk ▸ Ne.symm h : ¬ kv.1 = q), ih]
    · simp only [List.map_cons, if_neg hk, lookupA, ih]

theorem lookupA_map_set_self {α : Type} (m : List (Str × α)) (k : Str) (v : α)
    (h : (lookupA m k).isSome = true) :
    lookupA (m.map (fun kv => if kv.1 = k then (k, v) else kv)) k = some v := by
  induction m with
  | nil => simp [lookupA] at h
  | cons kv rest ih =>
    by_cases hk : kv.1 = k
    · simp [List.map_cons, if_pos hk, lookupA]
    · simp only [lookupA, if_neg hk] at h
      simp only [List.map_cons, if_neg hk, lookupA, if_neg hk, ih h]

theorem lookupA_append_none {α : Type} (m m2 : List (Str × α)) (k : Str)
    (h : lookupA m k = none) : lookupA (m ++ m2) k = lookupA m2 k := by
  induction m with
  | nil => rfl
  | cons kv rest ih =>
    by_cases hk : kv.1 = k
    · simp [lookupA, if_pos hk] at h
    · simp only [lookupA, if_neg hk] at h
      simp only [List.cons_append, lookupA, if_neg hk]
      exact ih h

theorem lookupA_append_ne {α : Type} (m : List (Str × α)) (k q : Str) (v : α)
    (h : q ≠ k) : lookupA (m ++ [(k, v)]) q = lookupA m q := by
  induction m with
  | nil =>
    simp only [List.nil_append, lookupA]
    rw [if_neg (Ne.symm h)]
  | cons kv rest ih =>
    by_cases hk : kv.1 = q
    · simp only [List.cons_append, lookupA, if_pos hk]
    · simp only [List.cons_append, lookupA, if_neg hk]
      exact ih

theorem lookupA_setA_self {α : Type} (m : List (Str × α)) (k : Str) (v : α) :
    lookupA (setA m k v) k = some v := by
  unfold setA
  by_cases h : (lookupA m k).isSome
  · rw [if_pos h]
    exact lookupA_map_set_self m k v h
  · rw [if_neg h]
    have hn : lookupA m k = none := by
      cases hx : lookupA m k
      · rfl
      · rw [hx] at h; simp at h
    rw [lookupA_append_none m _ k hn]
    simp [lookupA]

theorem lookupA_setA_ne {α : Type} (m : List (Str × α)) (k q : Str) (v : α)
    (h : q ≠ k) : lookupA (setA m k v) q = lookupA m q := by
  unfold setA
  by_cases hs : (lookupA m k).isSome
  · rw [if_pos hs]
    exact lookupA_map_set m k q v h
  · rw [if_neg hs]
    exact lookupA_append_ne m k q v h

theorem lookupA_eraseA_self {α : Type} (m : List (Str × α)) (k : Str) :
    lookupA (eraseA m k) k = none := by
  induction m with
  | nil => rfl
  | cons kv rest ih =>
    unfold eraseA at ih ⊢
    by_cases hk : kv.1 = k
    · simp only [List.filter_cons, hk]
      simpa using ih
    · rw [List.filter_cons, if_pos (by simpa using hk)]
      simpa [lookupA, if_neg hk] using ih

theorem lookupA_eraseA_none {α : Type} (m : List (Str × α)) (k q : Str)
    (h : lookupA m q = none) : lookupA (eraseA m k) q = none := by
  induction m with
  | nil => rfl
  | cons kv rest ih =>
    unfold eraseA at ih ⊢
    by_cases hq : kv.1 = q
    · simp [lookupA, if_pos hq] at h
    · simp only [lookupA, if_neg hq] at h
      rw [List.filter_cons]
      by_cases hk : kv.1 = k
      · rw [if_neg (by simpa using hk)]
        exact ih h
      · rw [if_pos (by simpa using hk)]
        simpa [lookupA, if_neg hq] using ih h

theorem lookupA_filter_none {α : Type} (m : List (Str × α)) (q : Str)
    (f : Str × α → Bool) (h : ∀ v, f (q, v) = false) :
    lookupA (m.filter f) q = none := by
  induction m with
  | nil => rfl
  | cons kv rest ih =>
    rw [List.filter_cons]
    by_cases hf : f kv = true
    · rw [if_pos hf]
      by_cases hq : kv.1 = q
      · exfalso
        have : f (q, kv.2) = false := h kv.2
        rw [← hq] at this
        simp [hf] at this
      · simpa [lookupA, if_neg hq] using ih
    · rw [if_neg hf]
      exact ih

theorem lookupA_none_key_ne {α : Type} (m : List (Str × α)) (q : Str)
    (h : lookupA m q = none) : ∀ kv ∈ m, kv.1 ≠ q := by
  induction m with
  | nil => intro kv hkv; cases hkv
  | cons kv0 rest ih =>
    intro kv hkv
    by_cases hq : kv0.1 = q
    · simp [lookupA, if_pos hq] at h
    · simp only [lookupA, if_neg hq] at h
      rcases List.mem_cons.mp hkv with h1 | h1
      · subst h1; exact hq
      · exact ih h kv h1

theorem serverIndex_lookup (hash : Bytes → Str) (srv : ServerSt) (q : Str) :
    lookupA (serverIndex hash srv) q
      = (lookupA srv q).map (fun f => (⟨hash f.content, f.mtime⟩ : SMeta)) := by
  induction srv with
  | nil => rfl
  | cons kv rest ih =>
    unfold serverIndex at ih ⊢
    by_cases hq : kv.1 = q
    · simp [lookupA, if_pos hq]
    · simp only [List.map_cons, lookupA, if_neg hq, ih]

theorem splitext_length (p : Str) :
    (splitext p).1.length + (splitext p).2.length = p.length := by
  unfold splitext
  dsimp only
  split
  · split
    · simp only [List.length_take, List.length_drop]
      omega
    · simp
  · simp

theorem conflictName_ne (rel : Str) (t : Nat) : conflictName rel t ≠ rel := by
  intro h
  have hlen := congrArg List.length h
  rw [conflictName] at hlen
  simp only [List.length_append, List.length_cons, List.length_nil] at hlen
  have hm : (str " (conflict @").length = 12 := rfl
  rw [hm] at hlen
  have hsp := splitext_length rel
  omega

theorem at_mem_conflictName (q : Str) (t : Nat) : '@' ∈ conflictName q t := by
  unfold conflictName
  exact List.mem_append.mpr (Or.inl (List.mem_append.mpr (Or.inl
    (List.mem_append.mpr (Or.inl (List.mem_append.mpr (Or.inr (by decide))))))))

theorem upload_conflict_eq (hash : Bytes → Str) (now : Nat) (srv : ServerSt)
    (path : Str) (b : Str) (data : Bytes) (r : SFile)
    (hrec : lookupA srv (normpath path) = some r)
    (hb : b ≠ []) (hdiff : b ≠ hash r.content) :
    do_POST_upload hash now srv path (some b) data
      = (⟨200, true, r.version + 1, hash data⟩,
          setA (setA srv (conflictName (normpath path) now) ⟨data, now, 1⟩)
            (normpath path) ⟨data, now, r.version + 1⟩) := by
  unfold do_POST_upload
  dsimp only
  rw [hrec]
  dsimp only
  rw [if_pos ⟨hb, hdiff⟩]

theorem foldl_preserve {α β : Type} {P : α → Prop} (f : α → β → α) :
    ∀ (l : List β) (a : α), P a → (∀ a2 b, b ∈ l → P a2 → P (f a2 b)) →
      P (l.foldl f a) := by
  intro l
  induction l with
  | nil => intro a ha _; exact ha
  | cons b bs ih =>
    intro a ha hstep
    exact ih (f a b) (hstep a b (List.mem_cons_self b bs) ha)
      (fun a2 x hx => hstep a2 x (List.mem_cons_of_mem b hx))

theorem foldl_establish {α β : Type} {P : α → Prop} (f : α → β → α) :
    ∀ (l : List β) (a : α) (x : β), x ∈ l → (∀ a2, P (f a2 x)) →
      (∀ a2 b, b ∈ l → P a2 → P (f a2 b)) → P (l.foldl f a) := by
  intro l
  induction l with
  | nil => intro a x hx; cases hx
  | cons b bs ih =>
    intro a x hx hest hstep
    rcases List.mem_cons.mp hx with h | h
    · subst h
      exact foldl_preserve f bs (f a x) (hest a)
        (fun a2 y hy => hstep a2 y (List.mem_cons_of_mem x hy))
    · exact ih (f a b) x h hest
        (fun a2 y hy => hstep a2 y (List.mem_cons_of_mem b hy))

theorem upload_lookup_none (hash : Bytes → Str) (now : Nat) (sv : ServerSt)
    (q : Str) (base : Option Str) (data : Bytes) (p : Str)
    (hp1 : p ≠ normpath q) (hp2 : p ≠ conflictName (normpath q) now)
    (h : lookupA sv p = none) :
    lookupA (do_POST_upload hash now sv q base data).2 p = none := by
  unfold do_POST_upload
  dsimp only
  rw [lookupA_setA_ne _ _ _ _ hp1]
  cases hrec : lookupA sv (normpath q) with
  | none => exact h
  | some r =>
    cases base with
    | none => exact h
    | some b =>
      dsimp only
      split
      · rw [lookupA_setA_ne _ _ _ _ hp2]
        exact h
      · exact h

theorem deletePhase_preserves (hash : Bytes → Str) (srv0 : ServerSt)
    (cl : ClientFs) (p : Str) (h : lookupA srv0 p = none) :
    lookupA (deletePhase hash srv0 cl) p = none := by
  unfold deletePhase
  dsimp only
  refine foldl_preserve (P := fun sv => lookupA sv p = none) _ _ _ h ?_
  intro sv q hq hsv
  by_cases hc : (lookupA (serverIndex hash srv0) q).isSome
  · rw [if_pos hc]
    exact lookupA_eraseA_none _ _ _ hsv
  · rw [if_neg hc]
    exact hsv

theorem deletePhase_removes (hash : Bytes → Str) (srv0 : ServerSt)
    (cl : ClientFs) (p : Str)
    (hpA : p ∈ cl.prevFiles) (hloc : lookupA cl.files p = none)
    (hsrv : (lookupA srv0 p).isSome = true) (hnp : normpath p = p) :
    lookupA (deletePhase hash srv0 cl) p = none := by
  unfold deletePhase
  dsimp only
  refine foldl_establish (P := fun sv => lookupA sv p = none) _ _ _ p ?_ ?_ ?_
  · exact List.mem_filter.mpr ⟨hpA, by simp [hloc]⟩
  · intro sv
    have hs : (lookupA (serverIndex hash srv0) p).isSome = true := by
      rw [serverIndex_lookup]
      cases hx : lookupA srv0 p
      · rw [hx] at hsrv; simp at hsrv
      · simp
    rw [if_pos hs]
    unfold do_POST_delete
    rw [hnp]
    exact lookupA_eraseA_self _ _
  · intro sv q hq hsv
    by_cases hc : (lookupA (serverIndex hash srv0) q).isSome
    · rw [if_pos hc]
      exact lookupA_eraseA_none _ _ _ hsv
    · rw [if_neg hc]
      exact hsv

theorem uploadFoldA_absent (hash : Bytes → Str) (now : Nat)
    (sidx : List (Str × SMeta)) (srv1 : ServerSt) (files : List (Str × LFile))
    (p : Str)
    (hsv : lookupA srv1 p = none)
    (hkeys : lookupA files p = none)
    (hnorm : ∀ kv ∈ files, normpath kv.1 = kv.1)
    (hcn : ∀ q t, conflictName q t ≠ p) :
    lookupA (files.foldl (upStepA hash now sidx) (srv1, [])).1 p = none ∧
    p ∉ (files.foldl (upStepA hash now sidx) (srv1, [])).2 := by
  refine foldl_preserve (P := fun acc : ServerSt × List Str =>
      lookupA acc.1 p = none ∧ p ∉ acc.2) _ _ _ ⟨hsv, by simp⟩ ?_
  intro acc kv hkv hacc
  have hne : kv.1 ≠ p := lookupA_none_key_ne files p hkeys kv hkv
  have hnp1 : p ≠ normpath kv.1 := by rw [hnorm kv hkv]; exact Ne.symm hne
  have hnp2 : p ≠ conflictName (normpath kv.1) now := Ne.symm (hcn _ _)
  have hups : p ∉ acc.2 ++ [kv.1] := by
    intro hmem
    rcases List.mem_append.mp hmem with hm | hm
    · exact hacc.2 hm
    · rw [List.mem_singleton] at hm
      exact hne hm.symm
  unfold upStepA
  cases hrec : lookupA sidx kv.1 with
  | none =>
    dsimp only
    exact ⟨upload_lookup_none _ _ _ _ _ _ _ hnp1 hnp2 hacc.1, hups⟩
  | some m =>
    dsimp only
    split
    · dsimp only
      exact ⟨upload_lookup_none _ _ _ _ _ _ _ hnp1 hnp2 hacc.1, hups⟩
    · exact hacc

theorem uploadFoldB_absent (hash : Bytes → Str) (now : Nat)
    (sidx : List (Str × SMeta)) (srv1 : ServerSt) (files1 : List (Str × LFile))
    (p : Str)
    (hsv : lookupA srv1 p = none)
    (hkeys : lookupA files1 p = none)
    (hnorm : ∀ kv ∈ files1, normpath kv.1 = kv.1)
    (hcn : ∀ q t, conflictName q t ≠ p) :
    lookupA (files1.foldl (upStepB hash now sidx) (srv1, files1, [])).1 p = none ∧
    lookupA (files1.foldl (upStepB hash now sidx) (srv1, files1, [])).2.1 p = none ∧
    p ∉ (files1.foldl (upStepB hash now sidx) (srv1, files1, [])).2.2 := by
  refine foldl_preserve (P := fun acc : ServerSt × List (Str × LFile) × List Str =>
      lookupA acc.1 p = none ∧ lookupA acc.2.1 p = none ∧ p ∉ acc.2.2) _ _ _
      ⟨hsv, hkeys, by simp⟩ ?_
  intro acc kv hkv hacc
  have hne : kv.1 ≠ p := lookupA_none_key_ne files1 p hkeys kv hkv
  have hnp1 : p ≠ normpath kv.1 := by rw [hnorm kv hkv]; exact Ne.symm hne
  have hnp2 : p ≠ conflictName (normpath kv.1) now := Ne.symm (hcn _ _)
  have hups : p ∉ acc.2.2 ++ [kv.1] := by
    intro hmem
    rcases List.mem_append.mp hmem with hm | hm
    · exact hacc.2.2 hm
    · rw [List.mem_singleton] at hm
      exact hne hm.symm
  unfold upStepB
  cases hrec : lookupA sidx kv.1 with
  | none =>
    dsimp only
    exact ⟨upload_lookup_none _ _ _ _ _ _ _ hnp1 hnp2 hacc.1, hacc.2.1, hups⟩
  | some m =>
    dsimp only
    split
    · split
      · dsimp only
        exact ⟨upload_lookup_none _ _ _ _ _ _ _ hnp1 hnp2 hacc.1, hacc.2.1, hups⟩
      · split
        · dsimp only
          refine ⟨hacc.1, ?_, hacc.2.2⟩
          cases lookupA acc.1 kv.1 with
          | none => exact hacc.2.1
          | some sf =>
            rw [lookupA_setA_ne _ _ _ _ (Ne.symm hne)]
            exact hacc.2.1
        · exact hacc
    · exact hacc

theorem dlFoldA_absent (hash : Bytes → Str) (now : Nat) (srv : ServerSt)
    (sidx : List (Str × SMeta)) (files : List (Str × LFile)) (p : Str)
    (hkeys : lookupA sidx p = none)
    (hfs : lookupA files p = none) :
    lookupA (sidx.foldl (dlStepA hash now srv) files) p = none := by
  refine foldl_preserve (P := fun fs => lookupA fs p = none) _ _ _ hfs ?_
  intro fsAcc km hkm hacc
  have hne : km.1 ≠ p := lookupA_none_key_ne sidx p hkeys km hkm
  unfold dlStepA
  dsimp only
  split
  · cases lookupA srv km.1 with
    | none => exact hacc
    | some sf =>
      rw [lookupA_setA_ne _ _ _ _ (Ne.symm hne)]
      exact hacc
  · exact hacc

theorem dlFoldB_absent (hash : Bytes → Str) (now : Nat) (srv : ServerSt)
    (sidx : List (Str × SMeta)) (files : List (Str × LFile)) (p : Str)
    (hkeys : lookupA sidx p = none)
    (hfs : lookupA files p = none) :
    lookupA (sidx.foldl (dlStepB hash now srv) files) p = none := by
  refine foldl_preserve (P := fun fs => lookupA fs p = none) _ _ _ hfs ?_
  intro fsAcc km hkm hacc
  have hne : km.1 ≠ p := lookupA_none_key_ne sidx p hkeys km hkm
  unfold dlStepB
  split
  · cases lookupA srv km.1 with
    | none => exact hacc
    | some sf =>
      rw [lookupA_setA_ne _ _ _ _ (Ne.symm hne)]
      exact hacc
  · exact hacc

theorem syncOnceA_removes (hash : Bytes → Str) (now : Nat) (srv0 : ServerSt)
    (cl : ClientFs) (p : Str)
    (hpA : p ∈ cl.prevFiles) (hloc : lookupA cl.files p = none)
    (hsrv : (lookupA srv0 p).isSome = true) (hnp : normpath p = p)
    (hnorm : ∀ kv ∈ cl.files, normpath kv.1 = kv.1)
    (hcn : ∀ q t, conflictName q t ≠ p) :
    lookupA (syncOnceA hash now srv0 cl).1 p = none := by
  have h1 := deletePhase_removes hash srv0 cl p hpA hloc hsrv hnp
  have h2 := uploadFoldA_absent hash now
    (serverIndex hash (deletePhase hash srv0 cl)) (deletePhase hash srv0 cl)
    cl.files p h1 hloc hnorm hcn
  exact h2.1

theorem syncOnceB_absent (hash : Bytes → Str) (now : Nat) (srv : ServerSt)
    (cl : ClientFs) (p : Str)
    (hs : lookupA srv p = none)
    (hnorm : ∀ kv ∈ cl.files, normpath kv.1 = kv.1)
    (hcn : ∀ q t, conflictName q t ≠ p) :
    lookupA (syncOnceB hash now srv cl).1 p = none ∧
    lookupA (syncOnceB hash now srv cl).2.1.files p = none ∧
    p ∉ (syncOnceB hash now srv cl).2.2 ∧
    p ∉ (syncOnceB hash now srv cl).2.1.prevFiles := by
  have h1 : lookupA (deletePhase hash srv cl) p = none :=
    deletePhase_preserves hash srv cl p hs
  have hidx : lookupA (serverIndex hash (deletePhase hash srv cl)) p = none := by
    rw [serverIndex_lookup, h1]
    rfl
  have hf1 : lookupA (cl.files.filter
      (fun kv => (lookupA (serverIndex hash (deletePhase hash srv cl)) kv.1).isSome))
      p = none := by
    apply lookupA_filter_none
    intro v
    simp [hidx]
  have hnorm1 : ∀ kv ∈ cl.files.filter
      (fun kv => (lookupA (serverIndex hash (deletePhase hash srv cl)) kv.1).isSome),
      normpath kv.1 = kv.1 :=
    fun kv hkv => hnorm kv (List.mem_of_mem_filter hkv)
  have h2 := uploadFoldB_absent hash now
    (serverIndex hash (deletePhase hash srv cl)) (deletePhase hash srv cl)
    (cl.files.filter
      (fun kv => (lookupA (serverIndex hash (deletePhase hash srv cl)) kv.1).isSome))
    p h1 hf1 hnorm1 hcn
  refine ⟨h2.1, dlFoldB_absent hash now _ _ _ p hidx h2.2.1, h2.2.2, ?_⟩
  intro hmem
  obtain ⟨kv, hkv, hkv2⟩ := List.mem_map.mp hmem
  exact lookupA_none_key_ne _ _ (dlFoldB_absent hash now _ _ _ p hidx h2.2.1)
    kv hkv hkv2

/-- C2 (confirmed): after node A — which deleted p locally while its saved
state still lists it — completes one sync cycle against a server holding
p, the server no longer holds p; a full cycle of node B (whatever its
own p state: never downloaded, still present, or independently deleted)
then ends with p absent from the directory of B, p among neither the
uploads of B nor its saved state, and p still absent from the server —
in particular B never re-uploads p.  The side conditions say that p and
the local paths are slash-normalized relative paths, as produced by the
directory walks, and that p is not itself spelled like a derived conflict
copy. -/
theorem c2_deletion_propagation (hash : Bytes → Str) (tA tB : Nat)
    (srv0 : ServerSt) (A B : ClientFs) (p : Str)
    (hpA : p ∈ A.prevFiles)
    (hlocA : lookupA A.files p = none)
    (hsrv : (lookupA srv0 p).isSome = true)
    (hnp : normpath p = p)
    (hnormA : ∀ kv ∈ A.files, normpath kv.1 = kv.1)
    (hnormB : ∀ kv ∈ B.files, normpath kv.1 = kv.1)
    (hcn : ∀ q t, conflictName q t ≠ p) :
    lookupA (syncOnceA hash tA srv0 A).1 p = none ∧
    lookupA (syncOnceB hash tB (syncOnceA hash tA srv0 A).1 B).1 p = none ∧
    lookupA (syncOnceB hash tB (syncOnceA hash tA srv0 A).1 B).2.1.files p
      = none ∧
    p ∉ (syncOnceB hash tB (syncOnceA hash tA srv0 A).1 B).2.2 ∧
    p ∉ (syncOnceB hash tB (syncOnceA hash tA srv0 A).1 B).2.1.prevFiles := by
  have hA := syncOnceA_removes hash tA srv0 A p hpA hlocA hsrv hnp hnormA hcn
  have hB := syncOnceB_absent hash tB (syncOnceA hash tA srv0 A).1 B p hA hnormB hcn
  exact ⟨hA, hB.1, hB.2.1, hB.2.2.1, hB.2.2.2⟩

/-- C2 witness: the theorem instantiated at a concrete world, once with a
node B unaware of p and once with a node B that had independently deleted
p — the two deletes converge to p being absent everywhere. -/
theorem c2_witness :
    ((str "p.txt") ∈ clA0.prevFiles ∧
      lookupA (syncOnceB hashW 4 (syncOnceA hashW 3 srvP clA0).1 clB0).2.1.files
        (str "p.txt") = none ∧
      (str "p.txt") ∉ (syncOnceB hashW 4 (syncOnceA hashW 3 srvP clA0).1 clB0).2.2) ∧
    (lookupA (syncOnceB hashW 4 (syncOnceA hashW 3 srvP clA0).1 clBdel).2.1.files
        (str "p.txt") = none ∧
      lookupA (syncOnceB hashW 4 (syncOnceA hashW 3 srvP clA0).1 clBdel).1
        (str "p.txt") = none) := by
  have hcn : ∀ q t, conflictName q t ≠ str "p.txt" := by
    intro q t h
    have hat := at_mem_conflictName q t
    rw [h] at hat
    exact absurd hat (by decide)
  have h1 := c2_deletion_propagation hashW 3 4 srvP clA0 clB0 (str "p.txt")
    (by decide) (by decide) (by decide) (by decide)
    (by intro kv hkv; exact absurd hkv (List.not_mem_nil kv))
    (by intro kv hkv; exact absurd hkv (List.not_mem_nil kv)) hcn
  have h2 := c2_deletion_propagation hashW 3 4 srvP clA0 clBdel (str "p.txt")
    (by decide) (by decide) (by decide) (by decide)
    (by intro kv hkv; exact absurd hkv (List.not_mem_nil kv))
    (by intro kv hkv; exact absurd hkv (List.not_mem_nil kv)) hcn
  exact ⟨⟨by decide, h1.2.2.1, h1.2.2.2.1⟩, ⟨h2.2.2.1, h2.2.1⟩⟩


/-- C1 (amended): when the server index holds a record for the uploaded
path whose fingerprint differs from the declared non-empty baseFingerprint
— the fingerprint of the incoming bytes is never consulted — the upload
handler does store the incoming content under the derived sibling name
(same stem, conflict marker with timestamp, original extension), but it
then also overwrites the existing file at the path with the incoming
content, increments the version, and answers HTTP 200 with ok true: no
conflict status is ever returned. -/
theorem c1_conflict_behavior (hash : Bytes → Str) (now : Nat) (srv : ServerSt)
    (path : Str) (b : Str) (data : Bytes) (r : SFile)
    (hrec : lookupA srv (normpath path) = some r)
    (hb : b ≠ []) (hdiff : b ≠ hash r.content) :
    (do_POST_upload hash now srv path (some b) data).1.code = 200 ∧
    (do_POST_upload hash now srv path (some b) data).1.ok = true ∧
    (do_POST_upload hash now srv path (some b) data).1.version = r.version + 1 ∧
    lookupA (do_POST_upload hash now srv path (some b) data).2 (normpath path)
      = some ⟨data, now, r.version + 1⟩ ∧
    lookupA (do_POST_upload hash now srv path (some b) data).2
      (conflictName (normpath path) now) = some ⟨data, now, 1⟩ := by
  rw [upload_conflict_eq hash now srv path b data r hrec hb hdiff]
  refine ⟨rfl, rfl, rfl, lookupA_setA_self _ _ _, ?_⟩
  rw [lookupA_setA_ne _ _ _ _ (conflictName_ne (normpath path) now)]
  exact lookupA_setA_self _ _ _

/-- C1 witness: the amended theorem instantiated at a concrete conflicting
upload (stored sha, incoming sha and base sha pairwise distinct). -/
theorem c1_witness :
    (['z'] : Str) ≠ [] ∧
    (do_POST_upload (fun bs => if bs = [2] then ['x'] else ['y']) 5
      [(str "a.txt", ⟨[0], 0, 1⟩)] (str "a.txt") (some ['z']) [2]).1.code = 200 :=
  ⟨by decide,
    (c1_conflict_behavior (fun bs => if bs = [2] then ['x'] else ['y']) 5
      [(str "a.txt", ⟨[0], 0, 1⟩)] (str "a.txt") ['z'] [2] ⟨[0], 0, 1⟩ (by decide)
      (by decide) (by decide)).1⟩

/-- C1 counterexample: an upload where the stored fingerprint differs both
from the incoming fingerprint and from the declared base — exactly the
conflict of the claim — is answered with HTTP 200 instead of 409, and the
file at the path is overwritten with the incoming bytes (the stored
content changes from the original to the uploaded bytes): the claim that
the handler does not overwrite and returns a conflict status is false at
this input.  Stored content is byte 0 with sha y, incoming bytes 2 with
sha x, declared base sha z. -/
theorem c1_counterexample :
    (do_POST_upload (fun bs => if bs = [2] then ['x'] else ['y']) 5
      [(str "a.txt", ⟨[0], 0, 1⟩)] (str "a.txt") (some ['z']) [2]).1.code = 200 ∧
    lookupA (do_POST_upload (fun bs => if bs = [2] then ['x'] else ['y']) 5
      [(str "a.txt", ⟨[0], 0, 1⟩)] (str "a.txt") (some ['z']) [2]).2 (str "a.txt")
      = some ⟨[2], 5, 2⟩ := by
  exact ⟨by decide, by decide⟩

/-- C6 (amended): every upload is accepted: the handler always rewrites
the file with the incoming bytes and always answers HTTP 200 with ok
true, and the version becomes the stored version plus one whenever an
index record for the path exists — also when the incoming fingerprint
equals the recorded one — and 1 for a new path. -/
theorem c6_version_increment (hash : Bytes → Str) (now : Nat) (srv : ServerSt)
    (path : Str) (base : Option Str) (data : Bytes) :
    (do_POST_upload hash now srv path base data).1.code = 200 ∧
    (do_POST_upload hash now srv path base data).1.ok = true ∧
    (do_POST_upload hash now srv path base data).1.version
      = (match lookupA srv (normpath path) with
         | some r => r.version + 1
         | none => 1) ∧
    lookupA (do_POST_upload hash now srv path base data).2 (normpath path)
      = some ⟨data, now, (do_POST_upload hash now srv path base data).1.version⟩ := by
  refine ⟨rfl, rfl, rfl, ?_⟩
  exact lookupA_setA_self _ _ _

/-- C6 counterexample: re-uploading the exact stored content (fingerprints
trivially equal, no declared base) still bumps the version from 1 to 2
and rewrites the index record; the claim that a matching-fingerprint
upload leaves the version unchanged is false at this input. -/
theorem c6_counterexample :
    lookupA [(str "a.txt", (⟨[1], 0, 1⟩ : SFile))] (str "a.txt")
      = some ⟨[1], 0, 1⟩ ∧
    (do_POST_upload (fun _ => ['h']) 7 [(str "a.txt", ⟨[1], 0, 1⟩)]
      (str "a.txt") none [1]).1.version = 2 ∧
    lookupA (do_POST_upload (fun _ => ['h']) 7 [(str "a.txt", ⟨[1], 0, 1⟩)]
      (str "a.txt") none [1]).2 (str "a.txt") = some ⟨[1], 7, 2⟩ := by
  exact ⟨by decide, by decide, by decide⟩

/-- C10: the claim that the download handler serves bytes only from under
the storage root is the evident intent of the startswith guard, but the
guard compares strings before the dotdot segments are resolved: for the
request path ../x the joined string /app/storage/../x passes the
startswith check against the root /app/storage, and the operating system
then resolves it to /app/x — outside the root — and the handler serves
those bytes instead of answering 404. -/
theorem c10_traversal :
    do_GET_download outsideFs (str "/app/storage") (str "../x") = some [7] ∧
    (resolveAbs (str "/app/storage")).isPrefixOf
      (resolveAbs (pyJoin (str "/app/storage") (normpath (str "../x")))) = false := by
  exact ⟨by decide, by decide⟩

end IndexServer

end SyncedFolder
